import Mathlib

/-!
Shallow embedding of the error-accumulation simulator of
`IEEE_754_Floating_Point_Error_Analyzer_/error.py` (the `run_analysis`
method), together with theorems settling the specification claims.

Modelling conventions:
* Every numeric value is an exact rational (`ℚ`); rounding is explicit.
* `numpy.float32` / `numpy.float64` values are the rationals in the range of
  `fl`, which rounds to the IEEE 754 binary format (24- or 53-bit
  significand, round-to-nearest-even, subnormals at the format's minimum
  exponent).  The exponent range is unbounded above: overflow to infinity is
  outside the model, which is faithful for all runs whose values stay in the
  format's finite range.
* Python `Decimal` values under `getcontext().prec = 50` (set at module load)
  are rationals; each arithmetic operation rounds its exact result to 50
  significant decimal digits, half-even (`decAdd`, `decSub`, `decMul`,
  `decDiv`, `decAbs`).  `Decimal(string)` construction is exact.
* `str(x)` on a numpy float, as fed to `Decimal(str(...))` by the code,
  produces the shortest decimal string that round-trips to `x` in its format
  (Python/numpy shortest-repr printing); `floatRepr` models the rational
  value of that string: the nearest decimal with the least number of
  significant digits that converts back to `x`.
* The modelled input strings are finite real literals
  (sign, digits, optional point, optional exponent); special spellings such
  as `"nan"`, `"inf"` or underscore separators are outside the model.
-/

namespace Analyzer

/-- Round a rational to the nearest integer, ties to even — the rounding used
both by IEEE 754 round-to-nearest-even and by `Decimal`'s default
`ROUND_HALF_EVEN`. -/
def roundEven (q : ℚ) : ℤ :=
  if q - ⌊q⌋ < 1/2 then ⌊q⌋
  else if (1 : ℚ)/2 < q - ⌊q⌋ then ⌊q⌋ + 1
  else if ⌊q⌋ % 2 = 0 then ⌊q⌋ else ⌊q⌋ + 1

/-- Fuel-based floor logarithm on naturals, structurally recursive (so that
concrete runs evaluate by plain kernel reduction); agrees with `Nat.log`
whenever the fuel dominates the argument. -/
def natLogF (b : ℕ) : ℕ → ℕ → ℕ
  | 0, _ => 0
  | fuel + 1, n => if b ≤ n ∧ 1 < b then natLogF b fuel (n / b) + 1 else 0

/-- Fuel-based ceiling logarithm on naturals, mirroring `Nat.clog`. -/
def natClogF (b : ℕ) : ℕ → ℕ → ℕ
  | 0, _ => 0
  | fuel + 1, n =>
    if 1 < b ∧ 1 < n then natClogF b fuel ((n + b - 1) / b) + 1 else 0

/-- Kernel-computable floor logarithm of a positive rational in base `b`
(the exponent of its leading digit); proven equal to `Int.log` below. -/
def ratLog (b : ℕ) (q : ℚ) : ℤ :=
  if 1 ≤ q then natLogF b ⌊q⌋₊ ⌊q⌋₊ else -(natClogF b ⌈q⁻¹⌉₊ ⌈q⁻¹⌉₊)

/-- The two floating-point formats selectable in the GUI combo box
(`"Single (32-bit)"` → `np.float32`, otherwise `np.float64`). -/
inductive Precision
  | single
  | double
deriving DecidableEq

/-- Significand width in bits: 24 for `np.float32`, 53 for `np.float64`. -/
def Precision.bits : Precision → ℕ
  | .single => 24
  | .double => 53

/-- Exponent of the least subnormal step: `2 ^ -149` for `np.float32`,
`2 ^ -1074` for `np.float64`. -/
def Precision.minExp : Precision → ℤ
  | .single => -149
  | .double => -1074

/-- Round an exact rational to the floating-point format with `bits`
significand bits and least exponent `minE`, round-to-nearest-even. -/
def fpRound (bits : ℕ) (minE : ℤ) (q : ℚ) : ℚ :=
  if q = 0 then 0
  else
    let a := |q|
    let e := ratLog 2 a
    let sh := max (e - bits + 1) minE
    (if q < 0 then -1 else 1) * (roundEven (a * 2 ^ (-sh)) : ℚ) * 2 ^ sh

/-- Conversion of an exact value to the selected numpy float format: the
rounding applied by `np.float32(...)` / `np.float64(...)` and after every
arithmetic operation on those types. -/
def fl (p : Precision) (q : ℚ) : ℚ :=
  fpRound p.bits p.minExp q

/-- Round a nonzero rational to `d` significant decimal digits, half-even:
the context rounding of Python `Decimal` arithmetic. -/
def decRoundSig (d : ℕ) (q : ℚ) : ℚ :=
  if q = 0 then 0
  else
    let a := |q|
    let e := ratLog 10 a
    let sh := e - d + 1
    (if q < 0 then -1 else 1) * (roundEven (a * 10 ^ (-sh)) : ℚ) * 10 ^ sh

/-- Rounding of every `Decimal` operation under `getcontext().prec = 50`
(set once at the top of `error.py`). -/
def dec50 (q : ℚ) : ℚ :=
  decRoundSig 50 q

/-- Python `Decimal` addition at working precision 50. -/
def decAdd (a b : ℚ) : ℚ :=
  dec50 (a + b)

/-- Python `Decimal` subtraction at working precision 50. -/
def decSub (a b : ℚ) : ℚ :=
  dec50 (a - b)

/-- Python `Decimal` multiplication at working precision 50. -/
def decMul (a b : ℚ) : ℚ :=
  dec50 (a * b)

/-- Python `Decimal` division at working precision 50.  The division by zero
case is unreachable in the modelled code (`run_analysis` guards it). -/
def decDiv (a b : ℚ) : ℚ :=
  dec50 (a / b)

/-- Python `abs` on a `Decimal` (applies the context rounding). -/
def decAbs (a : ℚ) : ℚ :=
  dec50 |a|

/-- Consume a run of decimal digits: returns the accumulated value, the
number of digits consumed, and the remaining characters. -/
def digitsRun : List Char → ℕ → ℕ → ℕ × ℕ × List Char
  | [], acc, cnt => (acc, cnt, [])
  | c :: cs, acc, cnt =>
    if c.isDigit then digitsRun cs (10 * acc + (c.toNat - 48)) (cnt + 1)
    else (acc, cnt, c :: cs)

/-- Consume an optional leading sign; `true` means negative. -/
def parseSign : List Char → Bool × List Char
  | '-' :: cs => (true, cs)
  | '+' :: cs => (false, cs)
  | cs => (false, cs)

/-- Parse `digits [. digits]` (at least one digit overall) into an exact
rational, returning the remaining characters. -/
def parseMantissa (cs : List Char) : Option (ℚ × List Char) :=
  let r1 := digitsRun cs 0 0
  match r1.2.2 with
  | '.' :: cs2 =>
    let r2 := digitsRun cs2 0 0
    if r1.2.1 + r2.2.1 = 0 then none
    else some ((r1.1 : ℚ) + (r2.1 : ℚ) / 10 ^ r2.2.1, r2.2.2)
  | _ => if r1.2.1 = 0 then none else some ((r1.1 : ℚ), r1.2.2)

/-- Parse an optional exponent part `e/E [sign] digits`. -/
def parseExpPart : List Char → Option (ℤ × List Char)
  | [] => some (0, [])
  | c :: cs =>
    if c = 'e' ∨ c = 'E' then
      let s := parseSign cs
      let r := digitsRun s.2 0 0
      if r.2.1 = 0 then none
      else some ((if s.1 then -(r.1 : ℤ) else (r.1 : ℤ)), r.2.2)
    else some (0, c :: cs)

/-- Parse a finite real-number literal, as accepted for the base and
increment fields by `Decimal(...)` / `np.float32(...)` / `np.float64(...)`
(`None` models the `ValueError`/`InvalidOperation` caught by the
`try`/`except` block of `run_analysis`). -/
def parseReal (str : String) : Option ℚ :=
  let s := parseSign str.data
  match parseMantissa s.2 with
  | none => none
  | some (m, rest) =>
    match parseExpPart rest with
    | none => none
    | some (ex, rest2) =>
      if rest2 = [] then some ((if s.1 then -1 else 1) * m * 10 ^ ex)
      else none

/-- Parse an integer literal, as accepted by Python `int(...)` for the
iterations field. -/
def parseIntStr (str : String) : Option ℤ :=
  let s := parseSign str.data
  let r := digitsRun s.2 0 0
  if r.2.1 = 0 ∨ r.2.2 ≠ [] then none
  else some (if s.1 then -(r.1 : ℤ) else (r.1 : ℤ))

/-- Helper for `floatRepr`: try `k, k+1, ...` significant digits (spending
`fuel` attempts) and return the first decimal rounding of `x` that
round-trips to `x` under format `p`. -/
def reprFrom (p : Precision) (x : ℚ) : ℕ → ℕ → ℚ
  | _, 0 => x
  | k, fuel + 1 =>
    let c := decRoundSig k x
    if fl p c = x then c else reprFrom p x (k + 1) fuel

/-- Value of `Decimal(str(x))` for a numpy float `x` of format `p`: Python
and numpy print the shortest decimal string that round-trips to `x`
(17 significant digits always suffice for `float64`, 9 for `float32`). -/
def floatRepr (p : Precision) (x : ℚ) : ℚ :=
  reprFrom p x 1 17

/-- The per-step exact reference `large_num_dec + (Decimal(i) * small_num_dec)`
(also the final `expected_result_dec` with `i = iterations`). -/
def refAt (bD sD : ℚ) (i : ℚ) : ℚ :=
  decAdd bD (decMul i sD)

/-- Result record of one `run_analysis` call: the four reported values plus
the plotted per-step data (`iteration_steps`, `errors_over_time`). -/
structure AnalysisResult where
  expected : ℚ
  actual : ℚ
  absoluteError : ℚ
  relativeErrorPercent : ℚ
  iterationSteps : List ℤ
  errorsOverTime : List ℚ
deriving DecidableEq

/-- The accumulation loop of `run_analysis`: starting at accumulator `acc`
and step index `i`, run the given number of remaining steps.  Each step does
`actual_result += small_num_float` in the chosen format, then records
`abs(Decimal(str(actual_result)) - (large_num_dec + Decimal(i)*small_num_dec))`.
Returns the final accumulator and the error list in step order. -/
def simLoop (p : Precision) (bD sD sF : ℚ) : ℕ → ℚ → ℕ → ℚ × List ℚ
  | _, acc, 0 => (acc, [])
  | i, acc, n + 1 =>
    let acc2 := fl p (acc + sF)
    let err := decAbs (decSub (floatRepr p acc2) (refAt bD sD (i : ℚ)))
    let rest := simLoop p bD sD sF (i + 1) acc2 n
    (rest.1, err :: rest.2)

/-- Body of `run_analysis` after successful input parsing: `k` is the parsed
iterations, `b` and `s` the exact values of the base and increment strings.
`Decimal` construction from the entry strings is exact, so `large_num_dec = b`
and `small_num_dec = s`; the float conversions are `fl p b`, `fl p s`. -/
def runCore (p : Precision) (k : ℤ) (b s : ℚ) : AnalysisResult :=
  let largeF := fl p b
  let smallF := fl p s
  let res := simLoop p b s smallF 1 largeF k.toNat
  let expectedD := refAt b s (k : ℚ)
  let absErr := decAbs (decSub (floatRepr p res.1) expectedD)
  { expected := expectedD
    actual := res.1
    absoluteError := absErr
    relativeErrorPercent :=
      if expectedD ≠ 0 then decMul (decDiv absErr (decAbs expectedD)) 100
      else 0
    iterationSteps := (List.range k.toNat).map (fun j : ℕ => (j : ℤ) + 1)
    errorsOverTime := res.2 }

/-- The `run_analysis` method of `error.py` as a pure function of the three
entry strings and the selected precision.  `none` models the
`messagebox.showerror` + `return` path of the `except` clause: no result is
produced.  The parses happen in source order (iterations, then the decimal
and float conversions of base and increment); any failure aborts before the
loop runs. -/
def run_analysis (largeS smallS itersS : String) (p : Precision) :
    Option AnalysisResult :=
  match parseIntStr itersS, parseReal largeS, parseReal smallS with
  | some k, some b, some s => some (runCore p k b s)
  | _, _, _ => none

/-- Closed form of the accumulator after `n` loop steps. -/
def accFrom (p : Precision) (sF a0 : ℚ) : ℕ → ℚ
  | 0 => a0
  | n + 1 => fl p (accFrom p sF a0 n + sF)

/-- Closed form of the error sample recorded at step `i` (1-based) when the
loop starts from accumulator `a0`. -/
def stepError (p : Precision) (bD sD sF a0 : ℚ) (i : ℕ) : ℚ :=
  decAbs (decSub (floatRepr p (accFrom p sF a0 i)) (refAt bD sD (i : ℚ)))

/-! ### Basic lemmas about the rounding primitives -/

theorem natLogF_eq (b : ℕ) : ∀ (fuel n : ℕ), n ≤ fuel → natLogF b fuel n = Nat.log b n := by
  intro fuel
  induction fuel with
  | zero =>
    intro n h
    have h0 : n = 0 := by omega
    subst h0
    simp [natLogF]
  | succ fuel ih =>
    intro n h
    simp only [natLogF]
    rw [Nat.log]
    by_cases hc : b ≤ n ∧ 1 < b
    · have hlt : n / b < n := Nat.div_lt_self (by omega) hc.2
      rw [if_pos hc, dif_pos hc, ih (n / b) (by omega)]
    · rw [if_neg hc, dif_neg hc]

theorem natClogF_eq (b : ℕ) : ∀ (fuel n : ℕ), n ≤ fuel → natClogF b fuel n = Nat.clog b n := by
  intro fuel
  induction fuel with
  | zero =>
    intro n h
    have h0 : n = 0 := by omega
    subst h0
    rw [Nat.clog]
    simp [natClogF]
  | succ fuel ih =>
    intro n h
    simp only [natClogF]
    rw [Nat.clog]
    by_cases hc : 1 < b ∧ 1 < n
    · have hlt : (n + b - 1) / b < n := Nat.add_pred_div_lt hc.1 hc.2
      rw [if_pos hc, dif_pos hc, ih _ (by omega)]
    · rw [if_neg hc, dif_neg hc]

theorem ratLog_eq (b : ℕ) (q : ℚ) : ratLog b q = Int.log b q := by
  rw [ratLog, Int.log]
  by_cases h : 1 ≤ q
  · rw [if_pos h, if_pos h, natLogF_eq b _ _ le_rfl]
  · rw [if_neg h, if_neg h, natClogF_eq b _ _ le_rfl]

theorem roundEven_intCast (n : ℤ) : roundEven (n : ℚ) = n := by
  unfold roundEven
  rw [Int.floor_intCast]
  simp

theorem roundEven_nonneg (q : ℚ) (h : 0 ≤ q) : 0 ≤ roundEven q := by
  unfold roundEven
  have hf : 0 ≤ ⌊q⌋ := Int.floor_nonneg.2 h
  split
  · exact hf
  · split
    · omega
    · split <;> omega

theorem roundEven_le (q : ℚ) (N : ℤ) (h : q < (N : ℚ)) : roundEven q ≤ N := by
  unfold roundEven
  have hf : ⌊q⌋ < N := Int.floor_lt.2 h
  split
  · omega
  · split
    · omega
    · split <;> omega

theorem dec50_zero : dec50 0 = 0 := by
  simp [dec50, decRoundSig]

theorem dec50_nonneg (q : ℚ) (h : 0 ≤ q) : 0 ≤ dec50 q := by
  unfold dec50 decRoundSig
  simp only [ratLog_eq]
  split
  · exact le_refl 0
  · next hq =>
    rw [if_neg (not_lt.2 h)]
    have h1 : (0:ℚ) ≤ (roundEven (|q| * 10 ^ (-(Int.log 10 |q| - 50 + 1))) : ℚ) := by
      exact_mod_cast roundEven_nonneg _ (mul_nonneg (abs_nonneg q) (le_of_lt (zpow_pos (by norm_num) _)))
    have h2 : (0:ℚ) < (10:ℚ) ^ (Int.log 10 |q| - 50 + 1) := zpow_pos (by norm_num) _
    calc (0:ℚ) ≤ 1 * (roundEven (|q| * 10 ^ (-(Int.log 10 |q| - 50 + 1))) : ℚ) * 10 ^ (Int.log 10 |q| - 50 + 1) := by positivity
    _ = _ := by ring_nf

theorem decAbs_nonneg (q : ℚ) : 0 ≤ decAbs q :=
  dec50_nonneg _ (abs_nonneg q)

theorem fpRound_zero (bits : ℕ) (minE : ℤ) : fpRound bits minE 0 = 0 := by
  simp [fpRound]

/-! ### Structural lemmas about the simulation loop -/

theorem accFrom_shift (p : Precision) (sF a0 : ℚ) (n : ℕ) :
    accFrom p sF (fl p (a0 + sF)) n = accFrom p sF a0 (n + 1) := by
  induction n with
  | zero => rfl
  | succ n ih => simp only [accFrom, ih]

theorem simLoop_fst (p : Precision) (bD sD sF : ℚ) :
    ∀ (n i : ℕ) (acc : ℚ), (simLoop p bD sD sF i acc n).1 = accFrom p sF acc n := by
  intro n
  induction n with
  | zero => intro i acc; rfl
  | succ n ih =>
    intro i acc
    simp only [simLoop]
    rw [ih, accFrom_shift]

theorem simLoop_snd (p : Precision) (bD sD sF : ℚ) :
    ∀ (n i : ℕ) (acc : ℚ),
      (simLoop p bD sD sF i acc n).2 =
        (List.range n).map
          (fun j => decAbs (decSub (floatRepr p (accFrom p sF acc (j + 1)))
            (refAt bD sD ((i + j : ℕ) : ℚ)))) := by
  intro n
  induction n with
  | zero => intro i acc; rfl
  | succ n ih =>
    intro i acc
    simp only [simLoop]
    rw [ih, List.range_succ_eq_map, List.map_cons, List.map_map]
    congr 1
    apply List.map_congr_left
    intro a ha
    have h2 := accFrom_shift p sF acc (a + 1)
    have h3 : i + 1 + a = i + (a + 1) := by omega
    simp only [Function.comp_apply, Nat.succ_eq_add_one]
    rw [h2, h3]

/-- Specialization to the actual loop, which starts at step index 1. -/
theorem simLoop_snd_one (p : Precision) (bD sD sF a0 : ℚ) (n : ℕ) :
    (simLoop p bD sD sF 1 a0 n).2 =
      (List.range n).map (fun j => stepError p bD sD sF a0 (j + 1)) := by
  rw [simLoop_snd]
  apply List.map_congr_left
  intro j hj
  unfold stepError
  have h1 : 1 + j = j + 1 := by omega
  rw [h1]

/-- The fields of `runCore`, with loop and accumulator in closed form. -/
theorem runCore_def (p : Precision) (k : ℤ) (b s : ℚ) :
    runCore p k b s =
      { expected := refAt b s (k : ℚ)
        actual := accFrom p (fl p s) (fl p b) k.toNat
        absoluteError := decAbs (decSub
          (floatRepr p (accFrom p (fl p s) (fl p b) k.toNat)) (refAt b s (k : ℚ)))
        relativeErrorPercent :=
          if refAt b s (k : ℚ) ≠ 0 then
            decMul (decDiv (decAbs (decSub
              (floatRepr p (accFrom p (fl p s) (fl p b) k.toNat))
              (refAt b s (k : ℚ)))) (decAbs (refAt b s (k : ℚ)))) 100
          else 0
        iterationSteps := (List.range k.toNat).map (fun j : ℕ => (j : ℤ) + 1)
        errorsOverTime := (List.range k.toNat).map
          (fun j => stepError p b s (fl p s) (fl p b) (j + 1)) } := by
  unfold runCore
  simp only [simLoop_fst, simLoop_snd_one]

/-- Inversion: a successful run determines successful parses and the result. -/
theorem run_inv {lS sS iS : String} {p : Precision} {r : AnalysisResult}
    (h : run_analysis lS sS iS p = some r) :
    ∃ k b s, parseIntStr iS = some k ∧ parseReal lS = some b ∧
      parseReal sS = some s ∧ runCore p k b s = r := by
  unfold run_analysis at h
  rcases hk : parseIntStr iS with _ | k <;> rw [hk] at h
  · simp at h
  rcases hb : parseReal lS with _ | b <;> rw [hb] at h
  · simp at h
  rcases hs : parseReal sS with _ | s <;> rw [hs] at h
  · simp at h
  · exact ⟨k, b, s, rfl, rfl, rfl, by injection h⟩

/-- A successful parse triple yields a run. -/
theorem run_some {lS sS iS : String} {p : Precision} {k : ℤ} {b s : ℚ}
    (hk : parseIntStr iS = some k) (hb : parseReal lS = some b)
    (hs : parseReal sS = some s) :
    run_analysis lS sS iS p = some (runCore p k b s) := by
  unfold run_analysis
  rw [hk, hb, hs]

theorem runCore_expected (p : Precision) (k : ℤ) (b s : ℚ) :
    (runCore p k b s).expected = refAt b s (k : ℚ) := by
  rw [runCore_def]

theorem runCore_actual (p : Precision) (k : ℤ) (b s : ℚ) :
    (runCore p k b s).actual = accFrom p (fl p s) (fl p b) k.toNat := by
  rw [runCore_def]

theorem runCore_absoluteError (p : Precision) (k : ℤ) (b s : ℚ) :
    (runCore p k b s).absoluteError = decAbs (decSub
      (floatRepr p (accFrom p (fl p s) (fl p b) k.toNat)) (refAt b s (k : ℚ))) := by
  rw [runCore_def]

theorem runCore_relativeErrorPercent (p : Precision) (k : ℤ) (b s : ℚ) :
    (runCore p k b s).relativeErrorPercent =
      if refAt b s (k : ℚ) ≠ 0 then
        decMul (decDiv (runCore p k b s).absoluteError
          (decAbs (refAt b s (k : ℚ)))) 100
      else 0 := by
  rw [runCore_absoluteError, runCore_def]

theorem runCore_iterationSteps (p : Precision) (k : ℤ) (b s : ℚ) :
    (runCore p k b s).iterationSteps =
      (List.range k.toNat).map (fun j : ℕ => (j : ℤ) + 1) := by
  rw [runCore_def]

theorem runCore_errorsOverTime (p : Precision) (k : ℤ) (b s : ℚ) :
    (runCore p k b s).errorsOverTime =
      (List.range k.toNat).map (fun j => stepError p b s (fl p s) (fl p b) (j + 1)) := by
  rw [runCore_def]

theorem toNat_cast_rat (k : ℤ) (hk : 0 ≤ k) : ((k.toNat : ℕ) : ℚ) = (k : ℚ) := by
  exact_mod_cast Int.toNat_of_nonneg hk

/-- Inversion against a known iterations parse. -/
theorem run_inv_k {lS sS iS : String} {p : Precision} {r : AnalysisResult}
    {k : ℤ} (hk : parseIntStr iS = some k)
    (h : run_analysis lS sS iS p = some r) :
    ∃ b s, parseReal lS = some b ∧ parseReal sS = some s ∧
      runCore p k b s = r := by
  obtain ⟨k2, b, s, hk2, hb, hs, hr⟩ := run_inv h
  refine ⟨b, s, hb, hs, ?_⟩
  rw [hk] at hk2
  rw [Option.some.inj hk2]
  exact hr

/-! ### Concrete input strings used in witnesses and counterexamples -/

/-- Input string literal. -/
def litZero : String := "0"

/-- Input string literal. -/
def litOne : String := "1"

/-- Input string literal. -/
def litTwo : String := "2"

/-- Input string literal. -/
def litThree : String := "3"

/-- Input string literal. -/
def litNegTwo : String := "-2"

/-- Input string literal. -/
def litHalf : String := "0.5"

/-- Input string literal. -/
def litTenth : String := "0.1"

/-- Input string literal. -/
def litQuarter : String := "0.25"

/-- Input string literal. -/
def litOneHalf : String := "1.5"

/-- Input string literal (not a number). -/
def litAbc : String := "abc"

/-- Input string literal (not a number). -/
def litX : String := "x"

/-- Input string literal: a 20-digit decimal lying extremely close to the
exact binary value of the float64 nearest to 0.1. -/
def litNearTenth : String := "0.10000000000000000555"

/-! ### Claims -/

/-- C1: for every valid input, the reported relativeErrorPercent equals
absoluteError / |expected| * 100 (computed with the program's Decimal
operations) when expected is nonzero, and equals 0 when expected == 0;
consequently relativeErrorPercent == 0 whenever absoluteError == 0. -/
theorem claim1_relative_error_policy (lS sS iS : String) (p : Precision)
    (r : AnalysisResult) (h : run_analysis lS sS iS p = some r) :
    (r.expected ≠ 0 →
      r.relativeErrorPercent = decMul (decDiv r.absoluteError (decAbs r.expected)) 100)
    ∧ (r.expected = 0 → r.relativeErrorPercent = 0)
    ∧ (r.absoluteError = 0 → r.relativeErrorPercent = 0) := by
  obtain ⟨k, b, s, hk, hb, hs, hr⟩ := run_inv h
  subst hr
  refine ⟨?_, ?_, ?_⟩
  · intro hx
    rw [runCore_expected] at hx
    rw [runCore_relativeErrorPercent, if_pos hx, runCore_expected]
  · intro hx
    rw [runCore_expected] at hx
    rw [runCore_relativeErrorPercent, if_neg (by simp [hx])]
  · intro hx
    rw [runCore_absoluteError] at hx
    rw [runCore_relativeErrorPercent, runCore_absoluteError]
    split
    · rw [hx]
      rw [show decDiv 0 (decAbs (refAt b s (k : ℚ))) = 0 by simp [decDiv, dec50_zero]]
      simp [decMul, dec50_zero]
    · rfl

/-- Witness for C1 at base "1", increment "1", iterations "2", double. -/
theorem claim1_witness :
    (run_analysis litOne litOne litTwo Precision.double =
      some (runCore Precision.double 2 1 1))
    ∧ ((runCore Precision.double 2 1 1).expected ≠ 0 →
        (runCore Precision.double 2 1 1).relativeErrorPercent =
          decMul (decDiv (runCore Precision.double 2 1 1).absoluteError
            (decAbs (runCore Precision.double 2 1 1).expected)) 100)
    ∧ ((runCore Precision.double 2 1 1).expected = 0 →
        (runCore Precision.double 2 1 1).relativeErrorPercent = 0)
    ∧ ((runCore Precision.double 2 1 1).absoluteError = 0 →
        (runCore Precision.double 2 1 1).relativeErrorPercent = 0) :=
  ⟨by decide!,
    claim1_relative_error_policy litOne litOne litTwo Precision.double
      (runCore Precision.double 2 1 1) (by decide!)⟩

/-- C2: for every valid input with iteration count k ≥ 1, the trajectory has
exactly k error samples, the plotted step sequence is 1..k (one sample per
step) in strictly increasing order, and every recorded absolute error is
non-negative. -/
theorem claim2_trajectory_shape (lS sS iS : String) (p : Precision)
    (k : ℤ) (r : AnalysisResult)
    (hk : parseIntStr iS = some k) (_h1 : 1 ≤ k)
    (h : run_analysis lS sS iS p = some r) :
    r.errorsOverTime.length = k.toNat
    ∧ r.iterationSteps = (List.range k.toNat).map (fun j : ℕ => (j : ℤ) + 1)
    ∧ r.iterationSteps.Pairwise (· < ·)
    ∧ r.iterationSteps.length = r.errorsOverTime.length
    ∧ ∀ e ∈ r.errorsOverTime, 0 ≤ e := by
  obtain ⟨b, s, hb, hs, hr⟩ := run_inv_k hk h
  subst hr
  refine ⟨?_, runCore_iterationSteps p k b s, ?_, ?_, ?_⟩
  · rw [runCore_errorsOverTime]
    simp only [List.length_map, List.length_range]
  · rw [runCore_iterationSteps]
    refine List.Pairwise.map (fun j : ℕ => (j : ℤ) + 1)
      (fun a b hab => ?_) (List.pairwise_lt_range k.toNat)
    show (a : ℤ) + 1 < (b : ℤ) + 1
    omega
  · rw [runCore_iterationSteps, runCore_errorsOverTime]
    simp only [List.length_map, List.length_range]
  · intro e he
    rw [runCore_errorsOverTime] at he
    obtain ⟨j, hj, rfl⟩ := List.mem_map.1 he
    exact decAbs_nonneg _

/-- Witness for C2 at base "1", increment "0.5", iterations "2", single. -/
theorem claim2_witness :
    ((runCore Precision.single 2 1 (1/2)).errorsOverTime.length = (2:ℤ).toNat
    ∧ (runCore Precision.single 2 1 (1/2)).iterationSteps =
        (List.range (2:ℤ).toNat).map (fun j : ℕ => (j : ℤ) + 1)
    ∧ (runCore Precision.single 2 1 (1/2)).iterationSteps.Pairwise (· < ·)
    ∧ (runCore Precision.single 2 1 (1/2)).iterationSteps.length =
        (runCore Precision.single 2 1 (1/2)).errorsOverTime.length
    ∧ ∀ e ∈ (runCore Precision.single 2 1 (1/2)).errorsOverTime, 0 ≤ e) :=
  claim2_trajectory_shape litOne litHalf litTwo Precision.single 2
    (runCore Precision.single 2 1 (1/2)) (by decide!) (by decide!) (by decide!)

/-- C3 counterexample: an iterations value of 0 is not a positive integer,
yet the simulation does not fail — it completes and produces a result. -/
theorem claim3_counterexample :
    parseIntStr litZero = some 0
    ∧ (run_analysis litOne litOne litZero Precision.double).isSome = true := by
  exact ⟨by decide!, by decide!⟩

/-- C3 (amended): an iterations string that does not parse as an integer
surfaces the error dialog and aborts with no partial result; an iterations
value that parses to zero or a negative integer is not rejected — the
simulation completes normally. -/
theorem claim3_iteration_validation (lS sS iS : String) (p : Precision)
    (k : ℤ) (b s : ℚ)
    (hb : parseReal lS = some b) (hs : parseReal sS = some s) :
    (parseIntStr iS = none → run_analysis lS sS iS p = none)
    ∧ (parseIntStr iS = some k → k ≤ 0 →
        (run_analysis lS sS iS p).isSome = true) := by
  constructor
  · intro hbad
    unfold run_analysis
    rw [hbad, hb, hs]
  · intro hk _
    rw [run_some hk hb hs]
    rfl

/-- Witness for C3 (amended) at base "1", increment "1", iterations "x". -/
theorem claim3_witness :
    (parseReal litOne = some 1 ∧ parseReal litOne = some 1)
    ∧ ((parseIntStr litX = none →
          run_analysis litOne litOne litX Precision.double = none)
      ∧ (parseIntStr litX = some 0 → (0:ℤ) ≤ 0 →
          (run_analysis litOne litOne litX Precision.double).isSome = true)) :=
  ⟨⟨by decide!, by decide!⟩,
    claim3_iteration_validation litOne litOne litX Precision.double 0 1 1
      (by decide!) (by decide!)⟩

/-- C6: if the base or the increment does not parse as a real number, the
run aborts inside the try-block, before the accumulation loop, and returns
no result at all (no partial simulation state reaches the caller). -/
theorem claim6_invalid_number_aborts (lS sS iS : String) (p : Precision)
    (hbad : parseReal lS = none ∨ parseReal sS = none) :
    run_analysis lS sS iS p = none := by
  rcases hbad with h1 | h1
  · cases hk : parseIntStr iS <;> cases hs2 : parseReal sS <;>
      simp [run_analysis, hk, h1, hs2]
  · cases hk : parseIntStr iS <;> cases hb2 : parseReal lS <;>
      simp [run_analysis, hk, h1, hb2]

/-- Witness for C6 at base "abc". -/
theorem claim6_witness :
    (parseReal litAbc = none ∨ parseReal litOne = none)
    ∧ run_analysis litAbc litOne litOne Precision.single = none :=
  ⟨Or.inl (by decide!),
    claim6_invalid_number_aborts litAbc litOne litOne Precision.single
      (Or.inl (by decide!))⟩

/-- C9: for valid input with iterations k ≥ 1, the final reported
absoluteError equals the error of the last trajectory sample: both are
computed by the same formula from the same final accumulator and the same
reference base + k*increment. -/
theorem claim9_final_equals_last (lS sS iS : String) (p : Precision)
    (k : ℤ) (r : AnalysisResult)
    (hk : parseIntStr iS = some k) (h1 : 1 ≤ k)
    (h : run_analysis lS sS iS p = some r) :
    r.errorsOverTime.getLast? = some r.absoluteError := by
  obtain ⟨b, s, hb, hs, hr⟩ := run_inv_k hk h
  subst hr
  rw [runCore_errorsOverTime, runCore_absoluteError]
  obtain ⟨m, hm⟩ : ∃ m, k.toNat = m + 1 := ⟨k.toNat - 1, by omega⟩
  rw [hm, List.range_succ, List.map_append, List.map_cons, List.map_nil]
  rw [List.getLast?_concat]
  congr 1
  unfold stepError
  rw [← hm, toNat_cast_rat k (by omega)]

/-- Witness for C9 at base "1", increment "1", iterations "3", double. -/
theorem claim9_witness :
    (runCore Precision.double 3 1 1).errorsOverTime.getLast? =
      some (runCore Precision.double 3 1 1).absoluteError :=
  claim9_final_equals_last litOne litOne litThree Precision.double 3
    (runCore Precision.double 3 1 1) (by decide!) (by decide!) (by decide!)

/-- C10: an iterations value parsing to an integer k ≤ 0 (with parseable
base and increment) is accepted: the loop body runs zero times, the
trajectory and step list are empty, the reported actual value is the base
converted to the chosen float format, and the reported expected value is
base + k * increment in Decimal arithmetic. -/
theorem claim10_nonpositive_iterations (lS sS iS : String) (p : Precision)
    (k : ℤ) (b s : ℚ)
    (hk : parseIntStr iS = some k) (hneg : k ≤ 0)
    (hb : parseReal lS = some b) (hs : parseReal sS = some s) :
    run_analysis lS sS iS p = some (runCore p k b s)
    ∧ (runCore p k b s).errorsOverTime = []
    ∧ (runCore p k b s).iterationSteps = []
    ∧ (runCore p k b s).actual = fl p b
    ∧ (runCore p k b s).expected = refAt b s (k : ℚ) := by
  have h0 : k.toNat = 0 := by omega
  refine ⟨run_some hk hb hs, ?_, ?_, ?_, runCore_expected p k b s⟩
  · rw [runCore_errorsOverTime, h0]
    rfl
  · rw [runCore_iterationSteps, h0]
    rfl
  · rw [runCore_actual, h0]
    rfl

/-- Witness for C10 at base "1", increment "1", iterations "-2", single. -/
theorem claim10_witness :
    run_analysis litOne litOne litNegTwo Precision.single =
      some (runCore Precision.single (-2) 1 1)
    ∧ (runCore Precision.single (-2) 1 1).errorsOverTime = []
    ∧ (runCore Precision.single (-2) 1 1).iterationSteps = []
    ∧ (runCore Precision.single (-2) 1 1).actual = fl Precision.single 1
    ∧ (runCore Precision.single (-2) 1 1).expected = refAt 1 1 ((-2 : ℤ) : ℚ) :=
  claim10_nonpositive_iterations litOne litOne litNegTwo Precision.single
    (-2) 1 1 (by decide!) (by decide!) (by decide!) (by decide!)

/-- Modelled from the spec's words for C4 (refinement comparison only): the
absolute error that WOULD result from converting the running value to an
exact decimal via its exact binary value, i.e. the exact |actual − expected|
with no detour through a decimal string. -/
def specExactBinaryAbsError (r : AnalysisResult) : ℚ :=
  |r.actual - r.expected|

/-- C4 counterexample: at base "0", increment "0.1", one iteration, double
precision, the code reports absoluteError 0 — `str(actual)` prints "0.1",
the shortest round-trip representation — while the error computed from the
accumulator's exact binary value (0.1000000000000000055511151231257827…) is
nonzero.  The reported error is therefore not derived from the exact binary
value of the running accumulator. -/
theorem claim4_counterexample :
    (run_analysis litZero litTenth litOne Precision.double).map
        AnalysisResult.absoluteError = some 0
    ∧ (run_analysis litZero litTenth litOne Precision.double).map
        specExactBinaryAbsError ≠ some 0 :=
  ⟨by decide!, by decide!⟩

/-- C4 (amended): at every step, and for the final summary, the reported
absolute error converts the running value to decimal via its shortest
round-trip decimal representation (`str`), not via its exact binary value:
absoluteError = |Decimal(str(actual)) − expected| in Decimal arithmetic. -/
theorem claim4_repr_not_exact_binary (lS sS iS : String) (p : Precision)
    (k : ℤ) (b s : ℚ) (r : AnalysisResult)
    (hk : parseIntStr iS = some k) (hb : parseReal lS = some b)
    (hs : parseReal sS = some s) (h : run_analysis lS sS iS p = some r) :
    r.absoluteError = decAbs (decSub (floatRepr p r.actual) r.expected)
    ∧ ∀ j, j < k.toNat →
        r.errorsOverTime[j]? =
          some (decAbs (decSub (floatRepr p (accFrom p (fl p s) (fl p b) (j + 1)))
            (refAt b s ((j + 1 : ℕ) : ℚ)))) := by
  have hr : runCore p k b s = r := by
    have h2 := run_some (p := p) hk hb hs
    rw [h2] at h
    exact Option.some.inj h
  subst hr
  constructor
  · rw [runCore_absoluteError, runCore_actual, runCore_expected]
  · intro j hj
    rw [runCore_errorsOverTime, List.getElem?_map, List.getElem?_range hj]
    rfl

/-- Witness for C4 (amended) at base "2", increment "0.25", iterations "1",
double. -/
theorem claim4_witness :
    (runCore Precision.double 1 2 (1/4)).absoluteError =
      decAbs (decSub (floatRepr Precision.double (runCore Precision.double 1 2 (1/4)).actual)
        (runCore Precision.double 1 2 (1/4)).expected)
    ∧ ∀ j, j < (1:ℤ).toNat →
        (runCore Precision.double 1 2 (1/4)).errorsOverTime[j]? =
          some (decAbs (decSub (floatRepr Precision.double
              (accFrom Precision.double (fl Precision.double (1/4))
                (fl Precision.double 2) (j + 1)))
            (refAt 2 (1/4) ((j + 1 : ℕ) : ℚ)))) :=
  claim4_repr_not_exact_binary litTwo litQuarter litOne Precision.double
    1 2 (1/4) (runCore Precision.double 1 2 (1/4))
    (by decide!) (by decide!) (by decide!) (by decide!)

/-- C5: at every step i the exact reference is recomputed independently as
base + i * increment in Decimal arithmetic (it is not accumulated
incrementally), and the final expected value is base + iterations * increment
computed the same way. -/
theorem claim5_independent_reference (lS sS iS : String) (p : Precision)
    (k : ℤ) (b s : ℚ) (r : AnalysisResult)
    (hk : parseIntStr iS = some k) (hb : parseReal lS = some b)
    (hs : parseReal sS = some s) (h : run_analysis lS sS iS p = some r) :
    r.expected = decAdd b (decMul (k : ℚ) s)
    ∧ ∀ j, j < k.toNat →
        r.errorsOverTime[j]? =
          some (decAbs (decSub (floatRepr p (accFrom p (fl p s) (fl p b) (j + 1)))
            (decAdd b (decMul ((j + 1 : ℕ) : ℚ) s)))) := by
  have hr : runCore p k b s = r := by
    have h2 := run_some (p := p) hk hb hs
    rw [h2] at h
    exact Option.some.inj h
  subst hr
  constructor
  · rw [runCore_expected]
    rfl
  · intro j hj
    rw [runCore_errorsOverTime, List.getElem?_map, List.getElem?_range hj]
    rfl

/-- Witness for C5 at base "0", increment "1", iterations "2", double. -/
theorem claim5_witness :
    (runCore Precision.double 2 0 1).expected = decAdd 0 (decMul ((2:ℤ) : ℚ) 1)
    ∧ ∀ j, j < (2:ℤ).toNat →
        (runCore Precision.double 2 0 1).errorsOverTime[j]? =
          some (decAbs (decSub (floatRepr Precision.double
              (accFrom Precision.double (fl Precision.double 1)
                (fl Precision.double 0) (j + 1)))
            (decAdd 0 (decMul ((j + 1 : ℕ) : ℚ) 1)))) :=
  claim5_independent_reference litZero litOne litTwo Precision.double
    2 0 1 (runCore Precision.double 2 0 1)
    (by decide!) (by decide!) (by decide!) (by decide!)

/-! ### Idempotence of the float rounding (a rounded value is representable,
so rounding it again is the identity) -/

theorem fpRound_pos_eq (bits : ℕ) (minE : ℤ) (x : ℚ) (hx : 0 < x) :
    fpRound bits minE x =
      (roundEven (x * 2 ^ (-(max (Int.log 2 x - bits + 1) minE))) : ℚ) *
        2 ^ (max (Int.log 2 x - bits + 1) minE) := by
  simp only [fpRound, ratLog_eq, if_neg (ne_of_gt hx), if_neg (not_lt.2 hx.le),
    abs_of_pos hx]
  ring

theorem fpRound_result_form (bits : ℕ) (minE : ℤ) (q : ℚ) (hq : 0 < q) :
    ∃ m : ℤ, 0 ≤ m ∧ m ≤ 2 ^ bits ∧
      fpRound bits minE q = (m : ℚ) * 2 ^ (max (Int.log 2 q - bits + 1) minE) := by
  refine ⟨roundEven (q * 2 ^ (-(max (Int.log 2 q - bits + 1) minE))), ?_, ?_,
    fpRound_pos_eq bits minE q hq⟩
  · exact roundEven_nonneg _ (by positivity)
  · apply roundEven_le
    have h1 : q < (2:ℚ) ^ (Int.log 2 q + 1) := by
      have := Int.lt_zpow_succ_log_self (b := 2) (by norm_num) q
      push_cast at this
      exact this
    have hmax := le_max_left (Int.log 2 q - bits + 1) minE
    have h2 : Int.log 2 q + 1 + -(max (Int.log 2 q - bits + 1) minE) ≤ (bits : ℤ) := by
      omega
    calc q * 2 ^ (-(max (Int.log 2 q - bits + 1) minE))
        < 2 ^ (Int.log 2 q + 1) * 2 ^ (-(max (Int.log 2 q - bits + 1) minE)) :=
          mul_lt_mul_of_pos_right h1 (zpow_pos (by norm_num) _)
      _ = 2 ^ (Int.log 2 q + 1 + -(max (Int.log 2 q - bits + 1) minE)) :=
          (zpow_add₀ (by norm_num) _ _).symm
      _ ≤ 2 ^ (bits : ℤ) := zpow_le_zpow_right₀ (by norm_num) h2
      _ = (((2 ^ bits : ℤ) : ℚ)) := by push_cast [zpow_natCast]; ring

theorem fpRound_eq_self (bits : ℕ) (minE : ℤ) (hb : 1 ≤ bits) (m : ℤ) (sh : ℤ)
    (hm0 : 0 < m) (hm : m ≤ 2 ^ bits) (hsh : minE ≤ sh) :
    fpRound bits minE ((m : ℚ) * 2 ^ sh) = (m : ℚ) * 2 ^ sh := by
  have hx : 0 < (m : ℚ) * 2 ^ sh := by
    have : (0:ℚ) < (m : ℚ) := by exact_mod_cast hm0
    positivity
  obtain ⟨j, hj⟩ : ∃ j : ℤ,
      ((m : ℚ) * 2 ^ sh) *
        2 ^ (-(max (Int.log 2 ((m : ℚ) * 2 ^ sh) - bits + 1) minE)) = (j : ℚ) := by
    rcases eq_or_lt_of_le hm with hme | hmlt
    · -- m = 2 ^ bits: the value is 2 ^ (bits + sh), one binade up
      have hxe : (m : ℚ) * 2 ^ sh = 2 ^ ((bits : ℤ) + sh) := by
        rw [hme]
        push_cast [zpow_add₀ (show (2:ℚ) ≠ 0 by norm_num), zpow_natCast]
        ring
      have hlog : Int.log 2 ((m : ℚ) * 2 ^ sh) = (bits : ℤ) + sh := by
        rw [hxe]
        have := Int.log_zpow (b := 2) (R := ℚ) (by norm_num) ((bits : ℤ) + sh)
        push_cast at this
        exact this
      refine ⟨2 ^ (bits - 1 : ℕ), ?_⟩
      rw [hlog, hxe]
      have hmaxeq : max ((bits : ℤ) + sh - bits + 1) minE = sh + 1 := by
        rw [max_eq_left (by omega)]
        omega
      rw [hmaxeq, ← zpow_add₀ (show (2:ℚ) ≠ 0 by norm_num)]
      have hexp : (bits : ℤ) + sh + -(sh + 1) = ((bits - 1 : ℕ) : ℤ) := by
        omega
      rw [hexp]
      push_cast [zpow_natCast]
      ring
    · -- m < 2 ^ bits: the rounding position is at or below 2 ^ sh
      have hloglt : Int.log 2 ((m : ℚ) * 2 ^ sh) < (bits : ℤ) + sh := by
        refine (Int.lt_zpow_iff_log_lt (b := 2) (R := ℚ) (by norm_num) hx).1 ?_
        push_cast
        rw [zpow_add₀ (show (2:ℚ) ≠ 0 by norm_num), zpow_natCast]
        have hmq : (m : ℚ) < 2 ^ bits := by exact_mod_cast hmlt
        exact mul_lt_mul_of_pos_right hmq (zpow_pos (by norm_num) _)
      set shx := max (Int.log 2 ((m : ℚ) * 2 ^ sh) - bits + 1) minE with hshx
      have hshle : shx ≤ sh := by
        rw [hshx]
        apply max_le (by omega) hsh
      refine ⟨m * 2 ^ (sh - shx).toNat, ?_⟩
      push_cast
      rw [← zpow_natCast (2:ℚ) (sh - shx).toNat, Int.toNat_of_nonneg
        (show (0:ℤ) ≤ sh - shx by omega)]
      rw [mul_assoc, ← zpow_add₀ (show (2:ℚ) ≠ 0 by norm_num)]
      congr 2
  rw [fpRound_pos_eq bits minE _ hx, hj, roundEven_intCast, ← hj, mul_assoc,
    ← zpow_add₀ (show (2:ℚ) ≠ 0 by norm_num), neg_add_cancel, zpow_zero, mul_one]

theorem fpRound_zero_arg (bits : ℕ) (minE : ℤ) : fpRound bits minE 0 = 0 := by
  simp [fpRound]

theorem fpRound_neg (bits : ℕ) (minE : ℤ) (q : ℚ) :
    fpRound bits minE (-q) = -fpRound bits minE q := by
  rcases eq_or_ne q 0 with h0 | h0
  · subst h0
    simp [fpRound]
  · have hn0 : -q ≠ 0 := neg_ne_zero.2 h0
    simp only [fpRound, if_neg hn0, if_neg h0, abs_neg]
    rcases lt_or_gt_of_ne h0 with hq | hq
    · rw [if_neg (not_lt.2 (neg_pos.2 hq).le), if_pos hq]
      ring
    · rw [if_pos (neg_lt_zero.2 hq), if_neg (not_lt.2 hq.le)]
      ring

theorem fpRound_idem_pos (bits : ℕ) (minE : ℤ) (hb : 1 ≤ bits) (q : ℚ)
    (hq : 0 < q) :
    fpRound bits minE (fpRound bits minE q) = fpRound bits minE q := by
  obtain ⟨m, hm0, hmle, heq⟩ := fpRound_result_form bits minE q hq
  rw [heq]
  rcases eq_or_lt_of_le hm0 with hz | hpos
  · rw [← hz]
    norm_num
    exact fpRound_zero_arg bits minE
  · exact fpRound_eq_self bits minE hb m _ hpos hmle (le_max_right _ _)

theorem fpRound_idem (bits : ℕ) (minE : ℤ) (hb : 1 ≤ bits) (q : ℚ) :
    fpRound bits minE (fpRound bits minE q) = fpRound bits minE q := by
  rcases lt_trichotomy q 0 with hq | hq | hq
  · have hpos : 0 < -q := neg_pos.2 hq
    have h1 : q = -(-q) := by ring
    rw [h1, fpRound_neg, fpRound_neg, fpRound_idem_pos bits minE hb (-q) hpos]
  · subst hq
    rw [fpRound_zero_arg, fpRound_zero_arg]
  · exact fpRound_idem_pos bits minE hb q hq

/-- Rounding a float value a second time (in the same format) is the
identity: rounded values are representable. -/
theorem fl_idem (p : Precision) (q : ℚ) : fl p (fl p q) = fl p q :=
  fpRound_idem p.bits p.minExp (by cases p <;> norm_num [Precision.bits]) q

theorem fl_zero (p : Precision) : fl p 0 = 0 :=
  fpRound_zero_arg p.bits p.minExp

/-- With a zero increment, the accumulator never moves: every loop step adds
0 and re-rounds, which leaves the (already rounded) value unchanged. -/
theorem accFrom_zero_inc (p : Precision) (b : ℚ) (n : ℕ) :
    accFrom p 0 (fl p b) n = fl p b := by
  induction n with
  | zero => rfl
  | succ n ih => rw [accFrom, ih, add_zero, fl_idem]

theorem decMul_zero_right (x : ℚ) : decMul x 0 = 0 := by
  simp [decMul, dec50_zero]

theorem decAdd_zero_right (x : ℚ) : decAdd x 0 = dec50 x := by
  simp [decAdd]

theorem decSub_self (x : ℚ) : decSub x x = 0 := by
  simp [decSub, dec50_zero]

theorem decAbs_zero : decAbs 0 = 0 := by
  simp [decAbs, dec50_zero]

theorem refAt_zero_inc (b i : ℚ) : refAt b 0 i = dec50 b := by
  rw [refAt, decMul_zero_right, decAdd_zero_right]

/-- C7 counterexample: increment "0", one iteration, double precision, with
base "0.10000000000000000555" (a decimal sitting next to the exact binary
value of the float64 nearest 0.1).  The accumulator stays at fl(base), but
str() prints it as "0.1", so the reported absoluteError is
|0.1 − 0.10000000000000000555| = 5.55e-21 ≠ 0: a zero increment does not
guarantee a zero reported error. -/
theorem claim7_counterexample :
    (run_analysis litNearTenth litZero litOne Precision.double).map
        AnalysisResult.absoluteError ≠ some 0
    ∧ (run_analysis litNearTenth litZero litOne Precision.double).isSome = true :=
  ⟨by decide!, by decide!⟩

/-- C7 (amended): with increment "0" and any positive iterations, the loop
leaves the accumulator at fl(base) (adding zero and re-rounding changes
nothing), and every reported error — per step and final — equals
|Decimal(str(fl(base))) − base|.  That value is 0 exactly for bases whose
50-digit Decimal value coincides with the shortest round-trip representation
of their float conversion (e.g. "1.5" or the GUI defaults), which the
hypothesis `hfix` states; it is not 0 for every parseable base. -/
theorem claim7_zero_increment (lS iS : String) (p : Precision)
    (k : ℤ) (b : ℚ) (r : AnalysisResult)
    (hk : parseIntStr iS = some k) (_hpos : 1 ≤ k)
    (hb : parseReal lS = some b)
    (hfix : floatRepr p (fl p b) = dec50 b)
    (h : run_analysis lS litZero iS p = some r) :
    r.absoluteError = 0 ∧ ∀ e ∈ r.errorsOverTime, e = 0 := by
  have hs : parseReal litZero = some 0 := by decide!
  have hr : runCore p k b 0 = r := by
    have h2 := run_some (p := p) hk hb hs
    rw [h2] at h
    exact Option.some.inj h
  subst hr
  constructor
  · rw [runCore_absoluteError, fl_zero, accFrom_zero_inc, hfix, refAt_zero_inc,
      decSub_self, decAbs_zero]
  · intro e he
    rw [runCore_errorsOverTime] at he
    obtain ⟨j, hj, rfl⟩ := List.mem_map.1 he
    unfold stepError
    rw [fl_zero, accFrom_zero_inc, hfix, refAt_zero_inc, decSub_self, decAbs_zero]

/-- Witness for C7 (amended) at base "1.5", iterations "2", single. -/
theorem claim7_witness :
    (floatRepr Precision.single (fl Precision.single (3/2)) = dec50 (3/2))
    ∧ (runCore Precision.single 2 (3/2) 0).absoluteError = 0
    ∧ ∀ e ∈ (runCore Precision.single 2 (3/2) 0).errorsOverTime, e = 0 :=
  ⟨by decide!,
    claim7_zero_increment litOneHalf litTwo Precision.single 2 (3/2)
      (runCore Precision.single 2 (3/2) 0)
      (by decide!) (by decide!) (by decide!) (by decide!) (by decide!)⟩

/-- Every successful run reports a non-negative absolute error (it is a
Decimal abs). -/
theorem run_absoluteError_nonneg {lS sS iS : String} {p : Precision}
    {r : AnalysisResult} (h : run_analysis lS sS iS p = some r) :
    0 ≤ r.absoluteError := by
  obtain ⟨k, b, s, hk, hb, hs, hr⟩ := run_inv h
  subst hr
  rw [runCore_absoluteError]
  exact decAbs_nonneg _

/-- C8 counterexample: base "0", increment "0.1", iterations "3".  Under
single precision the accumulator rounds to the float32 nearest 0.3 whose
str() is "0.3", so the reported error is 0; under double precision the
accumulator prints as "0.30000000000000004", giving reported error 4e-17.
Thus absoluteError_single < absoluteError_double for these inputs. -/
theorem claim8_counterexample :
    (run_analysis litZero litTenth litThree Precision.single).map
        AnalysisResult.absoluteError = some 0
    ∧ (run_analysis litZero litTenth litThree Precision.double).map
        AnalysisResult.absoluteError = some (1 / 25000000000000000)
    ∧ ¬ ((1 : ℚ) / 25000000000000000 ≤ 0) :=
  ⟨by decide!, by decide!, by decide!⟩

/-- C8 (amended): absoluteError_single ≥ absoluteError_double does not hold
for all inputs (see the counterexample); it does hold whenever the double
run reports zero error, because every reported absolute error is
non-negative. -/
theorem claim8_single_vs_double (lS sS iS : String) (r1 r2 : AnalysisResult)
    (h1 : run_analysis lS sS iS Precision.single = some r1)
    (_h2 : run_analysis lS sS iS Precision.double = some r2)
    (hz : r2.absoluteError = 0) :
    r2.absoluteError ≤ r1.absoluteError := by
  rw [hz]
  exact run_absoluteError_nonneg h1

/-- Witness for C8 (amended) at base "0", increment "0.5", iterations "2". -/
theorem claim8_witness :
    (runCore Precision.double 2 0 (1/2)).absoluteError = 0
    ∧ (runCore Precision.double 2 0 (1/2)).absoluteError ≤
        (runCore Precision.single 2 0 (1/2)).absoluteError :=
  ⟨by decide!,
    claim8_single_vs_double litZero litHalf litTwo
      (runCore Precision.single 2 0 (1/2)) (runCore Precision.double 2 0 (1/2))
      (by decide!) (by decide!) (by decide!)⟩

end Analyzer


